import Mathlib

/-!
# Verification of the phone-check Slot Detection & Identity-Reconciliation Engine

Shallow embedding of the core logic of `src/App.tsx` (repository
`school120/phone-check`): the identifier codec, grid mapper, photometric
analyzer (histogram / Otsu threshold / HSV averages), presence & color
classifier, roster reconciliation and the persisted baseline store.

Conventions of the embedding:
* JavaScript numbers are modelled as exact rationals (`ℚ`) where fractional
  arithmetic occurs and as `ℕ`/`ℤ` where the program only handles integers.
  Rationals have no NaN, so branches of the source that are reachable only
  through NaN inputs are noted in comments where they are omitted.
* JavaScript objects keyed by string (the profile maps) are modelled as
  functions `String → Option DeviceProfile`.
* JavaScript truthiness on a string (`s &&  ...`) is `s ≠ ""`; truthiness on
  an object held in an `Option` is `Option.isSome`.
* Exceptions (`try`/`catch` in `importProfiles`) are modelled with `Option`:
  `none` is a thrown-and-caught exception.
-/

namespace PhoneCheck

/-! ## Constants (`ROWS`, `COLS` of App.tsx) -/

def ROWS : Nat := 5
def COLS : Nat := 12

/-! ## Statuses and rows -/

inductive Status where
  | TURNED_IN
  | MISSING
  | UNASSIGNED
  | SUSPICIOUS
deriving DecidableEq, Repr

structure RosterRow where
  personId : String
  fullName : String
  securityNumber : String
  currentGrade : String
deriving DecidableEq, Repr

structure DetectionRow where
  slot : Nat
  securityNumber : String
  phonePresent : Bool
  presenceScore : ℚ
  satScore : ℚ
  confidence : ℚ
  color : String
deriving DecidableEq, Repr

structure JoinedRow extends DetectionRow where
  personId : Option String
  fullName : Option String
  currentGrade : Option String
  status : Status
  expectedColor : Option String
deriving DecidableEq, Repr

structure DeviceProfile where
  securityNumber : String
  color : String
  lastUpdated : String
deriving DecidableEq, Repr

/-- Profile maps (`Record<string, DeviceProfile>`) as partial functions. -/
abbrev ProfileMap := String → Option DeviceProfile

/-- JS truthiness of an optional string field (`r.fullName && ...`):
the field must be present and a nonempty string. -/
def optTruthy : Option String → Bool
  | none => false
  | some s => s ≠ ""

/-! ## Presence / confidence classifier (App.tsx lines 362–373)

`present = darkRatio >= darkRatioMin || avgS >= satMin` and
`confidence = max(0, min(1, 0.6*(darkRatioMin ? darkRatio/darkRatioMin :
darkRatio) + 0.4*(satMin ? avgS/satMin : avgS)))`.  The JS numeric
truthiness test `darkRatioMin ? _ : _` is `darkRatioMin ≠ 0` on rationals. -/

def clamp01 (x : ℚ) : ℚ := max 0 (min 1 x)

def presenceOf (darkRatio avgS darkRatioMin satMin : ℚ) : Bool :=
  decide (darkRatioMin ≤ darkRatio) || decide (satMin ≤ avgS)

def confidenceOf (darkRatio avgS darkRatioMin satMin : ℚ) : ℚ :=
  clamp01 ((6 : ℚ)/10 * (if darkRatioMin = 0 then darkRatio else darkRatio / darkRatioMin)
    + (4 : ℚ)/10 * (if satMin = 0 then avgS else avgS / satMin))

/-! ## Status derivation (App.tsx lines 389–400)

```
const ro = rosterIndex.get(d.securityNumber);
const expected = prior[d.securityNumber]?.color ?? null;
let status;
if (!ro) status = "UNASSIGNED";
else if (!d.phonePresent) status = "MISSING";
else if (expected && d.color !== expected) status = "SUSPICIOUS";
else status = "TURNED_IN";
```
`expected` is `null` (no profile) or the stored color string; JS truthiness
`expected && ...` additionally requires that string to be nonempty. -/

def statusOf (ro : Option RosterRow) (phonePresent : Bool)
    (expected : Option String) (detected : String) : Status :=
  if ro.isSome = false then .UNASSIGNED
  else if phonePresent = false then .MISSING
  else if (match expected with
           | none => false
           | some c => decide (c ≠ "") && decide (detected ≠ c)) then .SUSPICIOUS
  else .TURNED_IN

/-- One step of the `detections.map` join (App.tsx lines 389–400).  The JS
object spread `{ ...d, ...ro }` copies the roster fields when a match exists;
its `securityNumber` equals `d.securityNumber` because the roster index is
keyed by the upper-cased `securityNumber` which the loader already
upper-cased and trimmed. -/
def joinRow (rosterIndex : String → Option RosterRow) (prior : ProfileMap)
    (d : DetectionRow) : JoinedRow :=
  let ro := rosterIndex d.securityNumber
  let expected := (prior d.securityNumber).map (·.color)
  { d with
    personId := ro.map (·.personId)
    fullName := ro.map (·.fullName)
    currentGrade := ro.map (·.currentGrade)
    expectedColor := expected
    status := statusOf ro d.phonePresent expected d.color }

/-! ## Baseline auto-learning (App.tsx lines 404–416)

```
const updatedProfiles = { ...prior };
for (const r of joined) {
  if (r.fullName && r.phonePresent && !updatedProfiles[r.securityNumber]) {
    updatedProfiles[r.securityNumber] =
      { securityNumber: r.securityNumber, color: r.color, lastUpdated: now };
  }
}
```
The subsequent `Object.keys(...).length` comparison only decides whether a
redundant state write happens: the loop only ever adds keys, so when the key
counts agree the two maps are pointwise equal and the resulting state is
`scanLearn prior joined now` in both branches. -/

def scanLearn (prior : ProfileMap) (joined : List JoinedRow) (now : String) :
    ProfileMap :=
  joined.foldl (fun m r =>
    if optTruthy r.fullName && r.phonePresent && (m r.securityNumber).isNone then
      fun k => if k = r.securityNumber then
        some ⟨r.securityNumber, r.color, now⟩ else m k
    else m) prior

/-! ## Baseline import (App.tsx lines 433–460)

`importProfiles` parses the file text as JSON, iterates the parsed value with
`for (const p of arr)`, reads `p.securityNumber` / `p.color` /
`p.lastUpdated` from each entry and merges into a copy of the current map;
only after the whole loop succeeds does it publish the map with
`setProfiles` (in-memory) and `saveProfiles` (persisted store).  Any thrown
exception is caught and surfaces `alert("Invalid device-profiles.json")`
with no state change.  The structural failure modes are modelled as:
* `notJson` — `JSON.parse` throws;
* `notIterable` — the parsed value is not iterable (`for..of` throws);
* a `malformed` entry — reading the record's fields throws (e.g. a `null`
  entry, or a field on which the subsequent string operations throw). -/

inductive ImportEntry where
  | malformed
  | record (securityNumber color lastUpdated : String)
deriving DecidableEq, Repr

inductive ImportPayload where
  | notJson
  | notIterable
  | parsed (entries : List ImportEntry)
deriving DecidableEq, Repr

/-- In-memory profiles (`profiles` React state) and the persisted store
(`localStorage` behind `saveProfiles`). -/
structure ProfState where
  mem : ProfileMap
  store : ProfileMap

/-- JS `toUpperCase` on ASCII characters. -/
def upperCh (c : Char) : Char :=
  if 97 ≤ c.toNat ∧ c.toNat ≤ 122 then Char.ofNat (c.toNat - 32) else c

def upperStr (s : String) : String := String.mk (s.data.map upperCh)

/-- The merge loop body: `const key = (p.securityNumber || "").toUpperCase();
if (!key) continue; map[key] = { securityNumber: key, color: p.color,
lastUpdated: p.lastUpdated || now };`.  A `malformed` entry throws: the whole
loop (and import) aborts with `none`. -/
def importLoop (now : String) : List ImportEntry → ProfileMap → Option ProfileMap
  | [], m => some m
  | .malformed :: _, _ => none
  | .record sn color lu :: rest, m =>
      let key := upperStr sn
      if key = "" then importLoop now rest m
      else importLoop now rest
        (fun k => if k = key then
          some ⟨key, color, if lu = "" then now else lu⟩ else m k)

/-- Whole import operation: returns the new state and an error flag
(`true` exactly when the `catch` branch ran and `alert` fired). -/
def importProfiles (st : ProfState) (payload : ImportPayload) (now : String) :
    ProfState × Bool :=
  match payload with
  | .notJson => (st, true)
  | .notIterable => (st, true)
  | .parsed entries =>
      match importLoop now entries st.mem with
      | none => (st, true)
      | some m => (⟨m, m⟩, false)

/-! ## Identifier codec (App.tsx lines 42–64)

Strings are modelled as `List Char`.  The two regular expressions
`^(SM1|SM2)-?(\d{1,3})$` and `^(\d{1,2})([ABCDEF])(\d{1,3})$` are embedded
as direct functional matchers.  For the second one, the greedy `\d{1,2}`
with backtracking is equivalent to taking the maximal leading digit run and
requiring its length to be 1 or 2: shortening the run only exposes another
digit where the single letter `[ABCDEF]` is required, so backtracking can
never succeed when the maximal run fails. -/

def isDigitCh (c : Char) : Bool := 48 ≤ c.toNat && c.toNat ≤ 57

def digitVal (c : Char) : Nat := c.toNat - 48

/-- `parseInt(s, 10)` on a nonempty all-digit string. -/
def parseDigits (l : List Char) : Nat :=
  l.foldl (fun a c => 10 * a + digitVal c) 0

def digitChar (n : Nat) : Char := Char.ofNat (48 + n)

/-- Decimal rendering of a natural number (JS number-to-string for the
integers used as grades and slots). -/
def toDecimal (n : Nat) : List Char :=
  if _h : n < 10 then [digitChar n]
  else toDecimal (n / 10) ++ [digitChar (n % 10)]
decreasing_by exact Nat.div_lt_self (by omega) (by omega)

/-- ASCII whitespace (the characters JS `trim` / `\s` remove from the
identifier strings in play). -/
def isWsCh (c : Char) : Bool :=
  c.toNat = 32 || c.toNat = 9 || c.toNat = 10 ||
  c.toNat = 13 || c.toNat = 12 || c.toNat = 11

/-- `sn.trim().toUpperCase().replace(/\s+/g, "")`: upper-casing touches no
whitespace character, so the trim and the global whitespace removal fuse
into one filter. -/
def normalizeSN (l : List Char) : List Char :=
  (l.map upperCh).filter (fun c => !isWsCh c)

structure SlotId where
  grade : Option Nat
  box : List Char
  slot : Nat
deriving DecidableEq, Repr

/-- The optional separator `-?`: when the next character is a hyphen the
regex must consume it (a digit cannot match `-`), otherwise it matches
nothing. -/
def stripHyphen (l : List Char) : List Char :=
  match l with
  | c :: r => if c = '-' then r else c :: r
  | [] => []

/-- `^(SM1|SM2)-?(\d{1,3})$` -/
def matchSM (l : List Char) : Option SlotId :=
  match l with
  | s :: m :: d :: rest =>
      if s = 'S' ∧ m = 'M' ∧ (d = '1' ∨ d = '2') then
        let digits := stripHyphen rest
        if 1 ≤ digits.length ∧ digits.length ≤ 3 ∧ digits.all isDigitCh then
          some ⟨none, ['S', 'M', d], parseDigits digits⟩
        else none
      else none
  | _ => none

def boxLetters : List Char := ['A', 'B', 'C', 'D', 'E', 'F']

/-- `^(\d{1,2})([ABCDEF])(\d{1,3})$` -/
def matchGradeBox (l : List Char) : Option SlotId :=
  let d1 := l.takeWhile isDigitCh
  match l.dropWhile isDigitCh with
  | b :: rest2 =>
      if (1 ≤ d1.length ∧ d1.length ≤ 2) ∧ b ∈ boxLetters ∧
         (1 ≤ rest2.length ∧ rest2.length ≤ 3) ∧ rest2.all isDigitCh then
        some ⟨some (parseDigits d1), [b], parseDigits rest2⟩
      else none
  | [] => none

/-- `parseSecurityNumber` (App.tsx lines 46–57): normalize, reject the empty
string, try the SM grammar, then the grade-box grammar. -/
def parseSecurityNumber (l : List Char) : Option SlotId :=
  let s := normalizeSN l
  if s = [] then none
  else match matchSM s with
    | some v => some v
    | none => matchGradeBox s

/-- `buildSecurityNumber` (App.tsx lines 59–64). -/
def buildSecurityNumber (grade : Nat) (box : List Char) (slot : Nat) :
    List Char :=
  let b := box.map upperCh
  if b = ['S', 'M', '1'] ∨ b = ['S', 'M', '2'] then b ++ '-' :: toDecimal slot
  else toDecimal grade ++ b ++ toDecimal slot

/-! ## Grid mapper (App.tsx lines 294–316, 364)

`L = Math.round(cropLeft/100*w)` and friends; `cellW =
Math.floor((R-L)/COLS)`, `cellH = Math.floor((B-T)/ROWS)`; the outer cell
rectangle of grid position `(row, col)` starts at `(L + col*cellW,
T + row*cellH)` and has size `(cellW, cellH)`; `slot = row*COLS + col + 1`. -/

/-- JS `Math.round` (ties round toward `+∞`). -/
def jsRound (x : ℚ) : ℤ := ⌊x + 1/2⌋

structure CropBox where
  L : ℤ
  R : ℤ
  T : ℤ
  B : ℤ
deriving DecidableEq, Repr

def cropOf (w h : ℕ) (top left right bottom : ℚ) : CropBox :=
  { L := jsRound (left / 100 * w)
    R := jsRound (right / 100 * w)
    T := jsRound (top / 100 * h)
    B := jsRound (bottom / 100 * h) }

/-- `Math.floor((R - L) / COLS)`: floor of an exact integer quotient is
integer floor division. -/
def cellW (cb : CropBox) : ℤ := (cb.R - cb.L).fdiv (COLS : ℤ)

/-- `Math.floor((B - T) / ROWS)`. -/
def cellH (cb : CropBox) : ℤ := (cb.B - cb.T).fdiv (ROWS : ℤ)

/-- Membership of an integer pixel in the outer rectangle of grid cell
`(r, c)`: origin `(L + c*cellW, T + r*cellH)`, size `(cellW, cellH)`. -/
def inOuterCell (cb : CropBox) (r c : ℕ) (p : ℤ × ℤ) : Prop :=
  cb.L + c * cellW cb ≤ p.1 ∧ p.1 < cb.L + (c + 1) * cellW cb ∧
  cb.T + r * cellH cb ≤ p.2 ∧ p.2 < cb.T + (r + 1) * cellH cb

instance (cb : CropBox) (r c : ℕ) (p : ℤ × ℤ) :
    Decidable (inOuterCell cb r c p) := by
  unfold inOuterCell; infer_instance

/-- Membership in the crop box `[L, R) × [T, B)` (the region filled and
stroked by the overlay, and the region the cells are supposed to tile). -/
def inCropBox (cb : CropBox) (p : ℤ × ℤ) : Prop :=
  cb.L ≤ p.1 ∧ p.1 < cb.R ∧ cb.T ≤ p.2 ∧ p.2 < cb.B

instance (cb : CropBox) (p : ℤ × ℤ) : Decidable (inCropBox cb p) := by
  unfold inCropBox; infer_instance

def slotOf (r c : ℕ) : Nat := r * COLS + c + 1

/-- The slot indices generated by the row-major double loop. -/
def allSlots : List Nat :=
  ((List.range ROWS).map (fun r => (List.range COLS).map (fun c => slotOf r c))).flatten

/-! ## Photometric analyzer (App.tsx lines 320–360)

Per sampled pixel: grayscale histogram bucket, and running H/S/V sums.  The
float constants 0.299/0.587/0.114 are modelled as exact decimals. -/

def grayOf (r g b : ℕ) : ℕ :=
  (max 0 (min 255 (jsRound (299/1000 * (r : ℚ) + 587/1000 * g + 114/1000 * b)))).toNat

/-- JS `%` truncates toward zero; the one use site applies it to a
nonnegative argument (`60*((g-b)/diff) + 360 ≥ 300`), where truncation and
floor agree. -/
def jsMod (a n : ℚ) : ℚ := a - n * ⌊a / n⌋

def hueOf (r g b : ℕ) : ℚ :=
  let mx := max r (max g b)
  let mn := min r (min g b)
  let diff : ℚ := (mx : ℚ) - mn
  if diff = 0 then 0
  else if mx = r then jsMod (60 * (((g : ℚ) - b) / diff) + 360) 360
  else if mx = g then 60 * (((b : ℚ) - r) / diff + 2)
  else 60 * (((r : ℚ) - g) / diff + 4)

def satOf (r g b : ℕ) : ℚ :=
  let mx := max r (max g b)
  if mx = 0 then 0 else ((mx : ℚ) - min r (min g b)) / mx

def valOf (r g b : ℕ) : ℚ := (max r (max g b) : ℚ) / 255

structure CellStats where
  hist : Nat → Nat
  total : Nat
  sumH : ℚ
  sumS : ℚ
  sumV : ℚ

def initStats : CellStats := ⟨fun _ => 0, 0, 0, 0, 0⟩

/-- The body of the sampling loop: `hist[gray]++; total++;
sumH += hVal/2; sumS += sVal; sumV += vVal;`. -/
def stepPixel (s : CellStats) (p : ℕ × ℕ × ℕ) : CellStats :=
  { hist := fun i => if i = grayOf p.1 p.2.1 p.2.2 then s.hist i + 1 else s.hist i
    total := s.total + 1
    sumH := s.sumH + hueOf p.1 p.2.1 p.2.2 / 2
    sumS := s.sumS + satOf p.1 p.2.1 p.2.2
    sumV := s.sumV + valOf p.1 p.2.1 p.2.2 }

def analyze (pixels : List (ℕ × ℕ × ℕ)) : CellStats :=
  pixels.foldl stepPixel initStats

/-! ## Otsu threshold (App.tsx lines 119–140) -/

/-- `sum = Σ i * grayHist[i]` over the 256 buckets. -/
def sumIH (hist : Nat → Nat) : ℕ := ((List.range 256).map (fun i => i * hist i)).sum

structure OtsuState where
  wB : ℕ
  sumB : ℕ
  maxVar : ℚ
  threshold : ℕ
  done : Bool
deriving Repr

/-- The inter-class variance `wB*wF*(mB-mF)*(mB-mF)` computed in the body of
the loop at threshold `t`, from the incrementally updated `wB`, `sumB`. -/
def otsuBetween (hist : Nat → Nat) (total : ℕ) (sum : ℕ) (s : OtsuState)
    (t : ℕ) : ℚ :=
  let wB := s.wB + hist t
  let wF : ℤ := (total : ℤ) - wB
  let sumB := s.sumB + t * hist t
  let mB : ℚ := (sumB : ℚ) / wB
  let mF : ℚ := ((sum : ℚ) - sumB) / (wF : ℚ)
  (wB : ℚ) * (wF : ℚ) * ((mB - mF) * (mB - mF))

/-- One iteration of the `for (let t = 0; t < 256; t++)` loop.  `done` models
the `break` on `wF === 0`; `continue` on `wB === 0` keeps everything except
the already-incremented `wB`. -/
def otsuStep (hist : Nat → Nat) (total : ℕ) (sum : ℕ) (s : OtsuState)
    (t : ℕ) : OtsuState :=
  if s.done then s else
  let wB := s.wB + hist t
  if wB = 0 then { s with wB := wB } else
  let wF : ℤ := (total : ℤ) - wB
  if wF = 0 then { s with wB := wB, done := true } else
  let sumB := s.sumB + t * hist t
  let between : ℚ := otsuBetween hist total sum s t
  if s.maxVar < between then ⟨wB, sumB, between, t, false⟩
  else { s with wB := wB, sumB := sumB }

def otsuInit : OtsuState := ⟨0, 0, -1, 127, false⟩

def otsuThreshold (hist : Nat → Nat) (total : ℕ) : ℕ :=
  ((List.range 256).foldl (otsuStep hist total (sumIH hist)) otsuInit).threshold

/-- `const Tgray = total > 0 ? otsuThreshold(hist, total) : 128;`
(App.tsx line 352). -/
def selectTgray (hist : Nat → Nat) (total : ℕ) : ℕ :=
  if 0 < total then otsuThreshold hist total else 128

/-! ### Closed-form quantities for the Otsu loop

`prefHist hist k` is the background weight after processing buckets
`0..k-1`; `prefSum` the corresponding weighted sum; `varAt` the inter-class
variance the loop computes at a candidate threshold `t`. -/

def prefHist (hist : Nat → Nat) (k : ℕ) : ℕ := ((List.range k).map hist).sum

def prefSum (hist : Nat → Nat) (k : ℕ) : ℕ :=
  ((List.range k).map (fun i => i * hist i)).sum

/-- A threshold `t` is a candidate exactly when both classes are nonempty
(the loop neither `continue`s nor `break`s at `t`). -/
def isCand (hist : Nat → Nat) (total t : ℕ) : Prop :=
  0 < prefHist hist (t + 1) ∧ prefHist hist (t + 1) < total

instance (hist : Nat → Nat) (total t : ℕ) : Decidable (isCand hist total t) := by
  unfold isCand; infer_instance

/-- The inter-class variance `wB*wF*(mB-mF)^2` at threshold `t`. -/
def varAt (hist : Nat → Nat) (total t : ℕ) : ℚ :=
  let wB : ℚ := (prefHist hist (t + 1) : ℚ)
  let wF : ℚ := (total : ℚ) - wB
  let mB : ℚ := (prefSum hist (t + 1) : ℚ) / wB
  let mF : ℚ := ((sumIH hist : ℚ) - prefSum hist (t + 1)) / wF
  wB * wF * ((mB - mF) * (mB - mF))

/-- Loop invariant shape for the Otsu fold: after processing thresholds
`0..k-1`, either no candidate has been seen (initial `maxVar = -1`,
`threshold = 127`), or `threshold` is the first candidate attaining the
maximal inter-class variance among the candidates below `k`. -/
def BestAt (hist : Nat → Nat) (total k : ℕ) (s : OtsuState) : Prop :=
  ((∀ t, t < k → ¬ isCand hist total t) ∧ s.maxVar = -1 ∧ s.threshold = 127) ∨
  (∃ t0, t0 < k ∧ isCand hist total t0 ∧ s.threshold = t0 ∧
    s.maxVar = varAt hist total t0 ∧
    (∀ t, t < k → isCand hist total t →
      varAt hist total t ≤ varAt hist total t0) ∧
    (∀ t, t < t0 → isCand hist total t →
      varAt hist total t < varAt hist total t0))

/-! ## Presence/color classification of one cell (App.tsx lines 106–117,
352–383) -/

/-- `colorLabelFromHSV` (App.tsx lines 107–117).  The `isNaN` guard of the
source cannot fire on rationals (NaN does not exist here); in the program it
is likewise unreachable because the averaging divisor `count = total || 1`
is never zero. -/
def colorLabelFromHSV (h s255 v255 : ℚ) : String :=
  if s255 < 40 ∧ v255 < 120 then "black"
  else if s255 < 40 then "gray"
  else if h < 10 ∨ 170 < h then "red"
  else if h < 25 then "orange/brown"
  else if h < 35 then "yellow/gold"
  else if h < 85 then "green"
  else if h < 130 then "blue"
  else "purple"

structure CellOutcome where
  darkRatio : ℚ
  avgH : ℚ
  avgS : ℚ
  avgV : ℚ
  present : Bool
  confidence : ℚ
  color : String
deriving Repr

/-- The per-cell tail of the scan loop (App.tsx lines 352–383): Otsu (or the
128 default), dark ratio (`total ? darkCount/total : 0`), H/S/V averages
with `count = total || 1`, the presence/confidence classifier and the color
label. -/
def cellOutcome (pixels : List (ℕ × ℕ × ℕ)) (darkRatioMin satMin : ℚ) :
    CellOutcome :=
  let st := analyze pixels
  let Tgray := selectTgray st.hist st.total
  let darkCount := ((List.range (Tgray + 1)).map st.hist).sum
  let darkRatio : ℚ := if st.total = 0 then 0 else (darkCount : ℚ) / st.total
  let count : ℕ := if st.total = 0 then 1 else st.total
  let avgH := st.sumH / count
  let avgS := st.sumS / count
  let avgV := st.sumV / count
  { darkRatio := darkRatio
    avgH := avgH
    avgS := avgS
    avgV := avgV
    present := presenceOf darkRatio avgS darkRatioMin satMin
    confidence := confidenceOf darkRatio avgS darkRatioMin satMin
    color := colorLabelFromHSV avgH (avgS * 255) (avgV * 255) }

/-! # Theorems -/

/-! ## Helper lemmas -/

theorem clamp01_nonneg (x : ℚ) : 0 ≤ clamp01 x := le_max_left 0 _

theorem clamp01_le_one (x : ℚ) : clamp01 x ≤ 1 :=
  max_le zero_le_one (min_le_left 1 x)

theorem scanLearn_preserves (rows : List JoinedRow) (now sn : String)
    (p : DeviceProfile) :
    ∀ prior : ProfileMap, prior sn = some p → scanLearn prior rows now sn = some p := by
  induction rows with
  | nil => intro prior h; simpa [scanLearn] using h
  | cons r rest ih =>
      intro prior h
      simp only [scanLearn, List.foldl_cons] at *
      by_cases hc : (optTruthy r.fullName && r.phonePresent
          && ((prior r.securityNumber).isNone : Bool)) = true
      · rw [if_pos hc]
        apply ih
        by_cases hk : sn = r.securityNumber
        · subst hk
          simp [h] at hc
        · simp [hk, h]
      · rw [if_neg hc]; exact ih prior h

theorem importLoop_malformed (now : String) (pre post : List ImportEntry) :
    ∀ m : ProfileMap, importLoop now (pre ++ ImportEntry.malformed :: post) m = none := by
  induction pre with
  | nil => intro m; rfl
  | cons e rest ih =>
      intro m
      cases e with
      | malformed => rfl
      | record sn color lu =>
          simp only [List.cons_append, importLoop]
          by_cases hk : upperStr sn = ""
          · rw [if_pos hk]; exact ih m
          · rw [if_neg hk]; exact ih _

theorem importLoop_append (now : String) (l1 l2 : List ImportEntry) :
    ∀ m : ProfileMap,
      importLoop now (l1 ++ l2) m = (importLoop now l1 m).bind (importLoop now l2) := by
  induction l1 with
  | nil => intro m; rfl
  | cons e rest ih =>
      intro m
      cases e with
      | malformed => rfl
      | record sn color lu =>
          simp only [List.cons_append, importLoop]
          by_cases hk : upperStr sn = ""
          · rw [if_pos hk, if_pos hk]; exact ih m
          · rw [if_neg hk, if_neg hk]; exact ih _

/-! ## Claims -/

/-- C1: For every scanned grid cell, the reconciliation status is derived by
the first matching rule of this ordered list: no roster match → UNASSIGNED
(regardless of presence, detected color or baseline); otherwise
`phonePresent = false` → MISSING (regardless of baseline); otherwise a
stored baseline color exists for the identifier and the detected color
differs from it → SUSPICIOUS; otherwise TURNED_IN.  ("A stored baseline
color" is a stored profile whose color label is a nonempty string: the
source tests it with JS truthiness.) -/
theorem c1_status_precedence (rosterIndex : String → Option RosterRow)
    (prior : ProfileMap) (d : DetectionRow) :
    (rosterIndex d.securityNumber = none →
      (joinRow rosterIndex prior d).status = Status.UNASSIGNED) ∧
    (rosterIndex d.securityNumber ≠ none → d.phonePresent = false →
      (joinRow rosterIndex prior d).status = Status.MISSING) ∧
    (∀ p : DeviceProfile, rosterIndex d.securityNumber ≠ none →
      d.phonePresent = true → prior d.securityNumber = some p →
      p.color ≠ "" → d.color ≠ p.color →
      (joinRow rosterIndex prior d).status = Status.SUSPICIOUS) ∧
    (rosterIndex d.securityNumber ≠ none → d.phonePresent = true →
      (prior d.securityNumber = none ∨
        (∃ p : DeviceProfile, prior d.securityNumber = some p ∧ d.color = p.color)) →
      (joinRow rosterIndex prior d).status = Status.TURNED_IN) := by
  refine ⟨fun h => ?_, fun h hp => ?_, fun p h hp hb hc hd => ?_, fun h hp hb => ?_⟩
  · simp [joinRow, statusOf, h]
  · obtain ⟨ro, hro⟩ := Option.ne_none_iff_exists'.mp h
    simp [joinRow, statusOf, hro, hp]
  · obtain ⟨ro, hro⟩ := Option.ne_none_iff_exists'.mp h
    simp [joinRow, statusOf, hro, hp, hb, hc, hd]
  · obtain ⟨ro, hro⟩ := Option.ne_none_iff_exists'.mp h
    rcases hb with hb | ⟨p, hb, hcol⟩
    · simp [joinRow, statusOf, hro, hp, hb]
    · simp [joinRow, statusOf, hro, hp, hb, hcol]

theorem c1_status_precedence_witness :
    (joinRow (fun _ => none) (fun _ => none)
      ⟨1, "9A1", true, 0, 0, 0, "black"⟩).status = Status.UNASSIGNED ∧
    (joinRow (fun _ => some ⟨"p1", "Ada Lovelace", "9A1", "9"⟩) (fun _ => none)
      ⟨1, "9A1", false, 0, 0, 0, "black"⟩).status = Status.MISSING ∧
    (joinRow (fun _ => some ⟨"p1", "Ada Lovelace", "9A1", "9"⟩)
      (fun _ => some ⟨"9A1", "blue", "2024-01-01"⟩)
      ⟨1, "9A1", true, 0, 0, 0, "black"⟩).status = Status.SUSPICIOUS ∧
    (joinRow (fun _ => some ⟨"p1", "Ada Lovelace", "9A1", "9"⟩)
      (fun _ => some ⟨"9A1", "black", "2024-01-01"⟩)
      ⟨1, "9A1", true, 0, 0, 0, "black"⟩).status = Status.TURNED_IN := by
  refine ⟨(c1_status_precedence _ _ _).1 rfl,
    (c1_status_precedence _ _ _).2.1 (by decide) rfl,
    (c1_status_precedence _ _ _).2.2.1 ⟨"9A1", "blue", "2024-01-01"⟩
      (by decide) rfl rfl (by decide) (by decide),
    (c1_status_precedence _ _ _).2.2.2 (by decide) rfl
      (Or.inr ⟨⟨"9A1", "black", "2024-01-01"⟩, rfl, rfl⟩)⟩

/-- C2: Once an identifier has a stored baseline, the scan's auto-learning
never changes that entry — even when the detected color differs (then the
row is flagged SUSPICIOUS) — while an explicit import always overwrites the
stored entry for the identifier with the imported record. -/
theorem c2_baseline_write_once :
    (∀ (prior : ProfileMap) (rows : List JoinedRow) (now sn : String)
        (p : DeviceProfile), prior sn = some p →
        scanLearn prior rows now sn = some p) ∧
    (∀ (rosterIndex : String → Option RosterRow) (prior : ProfileMap)
        (d : DetectionRow) (p : DeviceProfile),
        rosterIndex d.securityNumber ≠ none → d.phonePresent = true →
        prior d.securityNumber = some p → p.color ≠ "" → d.color ≠ p.color →
        (joinRow rosterIndex prior d).status = Status.SUSPICIOUS) ∧
    (∀ (mem store : ProfileMap) (now : String) (entries : List ImportEntry)
        (m' : ProfileMap) (sn c lu : String),
        upperStr sn ≠ "" → importLoop now entries mem = some m' →
        ∃ m'' : ProfileMap,
          importProfiles ⟨mem, store⟩
              (.parsed (entries ++ [.record sn c lu])) now = (⟨m'', m''⟩, false) ∧
          m'' (upperStr sn) =
            some ⟨upperStr sn, c, if lu = "" then now else lu⟩) := by
  refine ⟨fun prior rows now sn p h => scanLearn_preserves rows now sn p prior h,
    fun rosterIndex prior d p h hp hb hc hd => ?_,
    fun mem store now entries m' sn c lu hk hl => ?_⟩
  · obtain ⟨ro, hro⟩ := Option.ne_none_iff_exists'.mp h
    simp [joinRow, statusOf, hro, hp, hb, hc, hd]
  · refine ⟨fun k => if k = upperStr sn then
      some ⟨upperStr sn, c, if lu = "" then now else lu⟩ else m' k, ?_, ?_⟩
    · simp only [importProfiles, importLoop_append, hl, Option.some_bind',
        importLoop, if_neg hk]
    · simp

theorem c2_baseline_write_once_witness :
    scanLearn (fun k => if k = "9A1" then some ⟨"9A1", "blue", "t0"⟩ else none)
      [{ slot := 1, securityNumber := "9A1", phonePresent := true,
         presenceScore := 0, satScore := 0, confidence := 0, color := "black",
         personId := some "p1", fullName := some "Ada Lovelace",
         currentGrade := some "9", status := Status.SUSPICIOUS,
         expectedColor := some "blue" }] "t1" "9A1" = some ⟨"9A1", "blue", "t0"⟩ ∧
    (joinRow (fun _ => some ⟨"p1", "Ada Lovelace", "9A1", "9"⟩)
      (fun k => if k = "9A1" then some ⟨"9A1", "blue", "t0"⟩ else none)
      ⟨1, "9A1", true, 0, 0, 0, "black"⟩).status = Status.SUSPICIOUS ∧
    (∃ m'' : ProfileMap,
      importProfiles ⟨fun k => if k = "9A1" then some ⟨"9A1", "blue", "t0"⟩ else none,
          fun _ => none⟩
        (.parsed ([] ++ [.record "9a1" "red" "t2"])) "t3" = (⟨m'', m''⟩, false) ∧
      m'' (upperStr "9a1") = some ⟨upperStr "9a1", "red", if "t2" = "" then "t3" else "t2"⟩) :=
  ⟨c2_baseline_write_once.1 _ _ _ _ _ (by simp),
    c2_baseline_write_once.2.1 _ _ _ ⟨"9A1", "blue", "t0"⟩
      (by decide) rfl (by simp) (by decide) (by decide),
    c2_baseline_write_once.2.2 _ _ _ _ _ _ _ _ (by decide) rfl⟩

/-- C6: A structurally invalid baseline import payload — text that is not
valid JSON, a parsed value that cannot be iterated, or one containing an
entry whose fields cannot be read — is rejected in its entirety with a
user-visible error: the in-memory map and the persisted store are left
unchanged and no entry of the payload (not even an earlier well-formed one)
is merged. -/
theorem c6_import_atomic (st : ProfState) (now : String) :
    importProfiles st .notJson now = (st, true) ∧
    importProfiles st .notIterable now = (st, true) ∧
    ∀ pre post : List ImportEntry,
      importProfiles st (.parsed (pre ++ ImportEntry.malformed :: post)) now
        = (st, true) := by
  refine ⟨rfl, rfl, fun pre post => ?_⟩
  simp only [importProfiles, importLoop_malformed]

/-- C7: Presence is exactly the disjunction
`(darkRatio ≥ minDarkRatio) ∨ (avgSaturation ≥ minSaturation)`; with nonzero
thresholds, confidence is
`clamp01(0.6*(darkRatio/minDarkRatio) + 0.4*(avgSaturation/minSaturation))`;
at thresholds (0.40, 0.20) a cell with darkRatio 0.50 and avgSaturation 0.05
is present with confidence 0.85. -/
theorem c7_presence_confidence (dr s m1 m2 : ℚ) :
    (presenceOf dr s m1 m2 = true ↔ m1 ≤ dr ∨ m2 ≤ s) ∧
    (m1 ≠ 0 → m2 ≠ 0 → confidenceOf dr s m1 m2
        = clamp01 (6/10 * (dr / m1) + 4/10 * (s / m2))) ∧
    presenceOf (1/2) (1/20) (2/5) (1/5) = true ∧
    confidenceOf (1/2) (1/20) (2/5) (1/5) = 17/20 := by
  refine ⟨by simp [presenceOf], fun h1 h2 => ?_, by norm_num [presenceOf], ?_⟩
  · simp [confidenceOf, h1, h2]
  · norm_num [confidenceOf, clamp01]

theorem c7_presence_confidence_witness :
    ((1 : ℚ)/2 ≠ 0) ∧ ((1 : ℚ)/4 ≠ 0) ∧
    confidenceOf 1 1 (1/2) (1/4) = clamp01 (6/10 * ((1 : ℚ)/(1/2)) + 4/10 * ((1 : ℚ)/(1/4))) :=
  ⟨by norm_num, by norm_num,
    (c7_presence_confidence 1 1 (1/2) (1/4)).2.1 (by norm_num) (by norm_num)⟩

/-- C8: The presence decision is monotonic — for fixed thresholds,
increasing the dark ratio or the average saturation never flips presence
from true to false. -/
theorem c8_presence_monotone (m1 m2 dr s dr' s' : ℚ) (hd : dr ≤ dr')
    (hs : s ≤ s') (h : presenceOf dr s m1 m2 = true) :
    presenceOf dr' s' m1 m2 = true := by
  simp only [presenceOf, Bool.or_eq_true, decide_eq_true_eq] at h ⊢
  rcases h with h | h
  · exact Or.inl (h.trans hd)
  · exact Or.inr (h.trans hs)

theorem c8_presence_monotone_witness :
    ((1 : ℚ)/2 ≤ 3/4) ∧ ((1 : ℚ)/10 ≤ 1/5) ∧
    presenceOf (1/2) (1/10) (1/2) (1/5) = true ∧
    presenceOf (3/4) (1/5) (1/2) (1/5) = true :=
  ⟨by norm_num, by norm_num, by norm_num [presenceOf],
    c8_presence_monotone (1/2) (1/5) (1/2) (1/10) (3/4) (1/5)
      (by norm_num) (by norm_num) (by norm_num [presenceOf])⟩

/-- C10: The confidence computation is total for every threshold setting in
[0,1]: it always lies in [0,1], and when a threshold is zero the raw signal
is used in place of the quotient, so no division by zero occurs. -/
theorem c10_confidence_total (dr s m1 m2 : ℚ) (_h10 : 0 ≤ m1) (_h11 : m1 ≤ 1)
    (_h20 : 0 ≤ m2) (_h21 : m2 ≤ 1) :
    (0 ≤ confidenceOf dr s m1 m2 ∧ confidenceOf dr s m1 m2 ≤ 1) ∧
    (m1 = 0 → confidenceOf dr s m1 m2
        = clamp01 (6/10 * dr + 4/10 * (if m2 = 0 then s else s / m2))) ∧
    (m2 = 0 → confidenceOf dr s m1 m2
        = clamp01 (6/10 * (if m1 = 0 then dr else dr / m1) + 4/10 * s)) := by
  refine ⟨⟨clamp01_nonneg _, clamp01_le_one _⟩, fun h1 => ?_, fun h2 => ?_⟩
  · simp [confidenceOf, h1]
  · simp [confidenceOf, h2]

theorem c10_confidence_total_witness :
    ((0 : ℚ) ≤ 0 ∧ (0 : ℚ) ≤ 1 ∧ (0 : ℚ) ≤ 1/5 ∧ (1 : ℚ)/5 ≤ 1) ∧
    (0 ≤ confidenceOf 2 3 0 (1/5) ∧ confidenceOf 2 3 0 (1/5) ≤ 1) ∧
    confidenceOf 2 3 0 (1/5)
      = clamp01 (6/10 * 2 + 4/10 * (if (1 : ℚ)/5 = 0 then 3 else 3 / (1/5))) :=
  ⟨⟨le_refl 0, zero_le_one, by norm_num, by norm_num⟩,
    (c10_confidence_total 2 3 0 (1/5) (le_refl 0) zero_le_one
      (by norm_num) (by norm_num)).1,
    (c10_confidence_total 2 3 0 (1/5) (le_refl 0) zero_le_one
      (by norm_num) (by norm_num)).2.1 rfl⟩

/-- C5 counterexample: at the default thresholds (0.40, 0.20) a cell whose
sampling region yields zero sampled pixels gets the color label `"black"`,
not `"unknown"` as the claim states: the averaging divisor `count = total
|| 1` prevents the NaN that the `"unknown"` branch of `colorLabelFromHSV`
guards against, and the 0/0/0 averages fall into the `"black"` bucket. -/
theorem c5_zero_sample_counterexample :
    (cellOutcome [] (2/5) (1/5)).color = "black" ∧ "black" ≠ "unknown" := by
  refine ⟨?_, by decide⟩
  have hana : analyze [] = initStats := rfl
  simp [cellOutcome, hana, initStats, selectTgray, colorLabelFromHSV]

/-- C5 (amended): a cell whose sampling region yields zero sampled pixels
(total = 0) gets the degenerate result: dark ratio 0, average H/S/V all 0,
color label `"black"` (the `count = total || 1` guard makes the averages 0
rather than NaN, so the `"unknown"` branch is unreachable), and presence
false whenever both thresholds are positive. -/
theorem c5_zero_sample_amended (m1 m2 : ℚ) :
    (cellOutcome [] m1 m2).darkRatio = 0 ∧
    (cellOutcome [] m1 m2).avgH = 0 ∧
    (cellOutcome [] m1 m2).avgS = 0 ∧
    (cellOutcome [] m1 m2).avgV = 0 ∧
    (cellOutcome [] m1 m2).color = "black" ∧
    (0 < m1 → 0 < m2 → (cellOutcome [] m1 m2).present = false) := by
  have hana : analyze [] = initStats := rfl
  refine ⟨?_, ?_, ?_, ?_, ?_, fun h1 h2 => ?_⟩
  · simp [cellOutcome, hana, initStats]
  · simp [cellOutcome, hana, initStats]
  · simp [cellOutcome, hana, initStats]
  · simp [cellOutcome, hana, initStats]
  · simp [cellOutcome, hana, initStats, selectTgray, colorLabelFromHSV]
  · simp [cellOutcome, hana, initStats, presenceOf, h1.not_le, h2.not_le]

theorem c5_zero_sample_amended_witness :
    ((0 : ℚ) < 2/5) ∧ ((0 : ℚ) < 1/5) ∧
    (cellOutcome [] (2/5) (1/5)).present = false :=
  ⟨by norm_num, by norm_num,
    (c5_zero_sample_amended (2/5) (1/5)).2.2.2.2.2 (by norm_num) (by norm_num)⟩

/-! ## Grid mapper lemmas -/

theorem jsRound_mono {x y : ℚ} (h : x ≤ y) : jsRound x ≤ jsRound y :=
  Int.floor_le_floor (by linarith)

/-- Two distinct cells of a 1-dimensional uniform grid cannot share a
point. -/
theorem interval_disjoint {base d i j x : ℤ} (hij : i ≠ j)
    (h1 : base + i * d ≤ x) (h2 : x < base + (i + 1) * d)
    (h1' : base + j * d ≤ x) (h2' : x < base + (j + 1) * d) : False := by
  have e : ∀ k : ℤ, base + (k + 1) * d = base + k * d + d := fun k => by ring
  rw [e] at h2 h2'
  have hd : 0 < d := by linarith
  rcases lt_or_gt_of_ne hij with hlt | hlt
  · have hle : (i + 1) * d ≤ j * d :=
      mul_le_mul_of_nonneg_right (by omega) hd.le
    have e2 : (i + 1) * d = i * d + d := by ring
    linarith
  · have hle : (j + 1) * d ≤ i * d :=
      mul_le_mul_of_nonneg_right (by omega) hd.le
    have e2 : (j + 1) * d = j * d + d := by ring
    linarith

/-- Locating a point of `[0, n*d)` in the grid of `n` intervals of width
`d`. -/
theorem exists_interval_index {d n x : ℤ} (hd : 0 < d) (h0 : 0 ≤ x)
    (hx : x < n * d) :
    ∃ i : ℤ, 0 ≤ i ∧ i < n ∧ i * d ≤ x ∧ x < (i + 1) * d := by
  have hdm := Int.ediv_add_emod x d
  have hm0 := Int.emod_nonneg x (by omega : d ≠ 0)
  have hmlt := Int.emod_lt_of_pos x hd
  refine ⟨x / d, Int.ediv_nonneg h0 hd.le, (Int.ediv_lt_iff_lt_mul hd).mpr hx,
    ?_, ?_⟩
  · have e : x / d * d = d * (x / d) := mul_comm _ _
    linarith [e]
  · have e : (x / d + 1) * d = d * (x / d) + d := by ring
    linarith [e]

/-- `n * (a.fdiv n) ≤ a` for `0 ≤ a`, `0 ≤ n`: the cells never overrun the
crop box. -/
theorem mul_fdiv_le {a n : ℤ} (ha : 0 ≤ a) (hn : 0 ≤ n) : n * a.fdiv n ≤ a := by
  have := Int.fdiv_add_fmod a n
  have := Int.fmod_nonneg ha hn
  linarith

/-- C4 counterexample: the spec's own example — a 1000×800 image with crop
percentages (top 9, left 19, right 83, bottom 92) gives crop box
L=190, R=830, T=72, B=736 and cellW=53, cellH=132; the pixel (826, 72) lies
in the crop box but in none of the 60 outer cell rectangles, because
12*53 = 636 < 640 leaves a 4-pixel strip uncovered: the union of the cells
does not tile the entire crop box. -/
theorem c4_tiling_counterexample :
    inCropBox (cropOf 1000 800 9 19 83 92) (826, 72) ∧
    ∀ r, r < ROWS → ∀ c, c < COLS →
      ¬ inOuterCell (cropOf 1000 800 9 19 83 92) r c (826, 72) := by
  have hc : cropOf 1000 800 9 19 83 92 = ⟨190, 830, 72, 736⟩ := by
    norm_num [cropOf, jsRound, CropBox.mk.injEq]
  rw [hc]
  exact ⟨by decide, by decide⟩

/-- C4 (amended): for every image size and crop rectangle (percentages with
top<bottom, left<right), the outer cell rectangles — size (cellW, cellH)
with cellW = floor(cropWidth/columns), cellH = floor(cropHeight/rows),
positioned at (L + col*cellW, T + row*cellH) — are pairwise disjoint, and
their union is exactly the sub-rectangle
`[L, L + columns*cellW) × [T, T + rows*cellH)` of the crop box (equal to the
whole crop box only when the crop dimensions are divisible by the column and
row counts); the slot indices assigned to the cells are exactly
`1..rows*columns` with no duplicates or gaps. -/
theorem c4_grid_tiling_amended (w h : ℕ) (top left right bottom : ℚ)
    (hlr : left < right) (htb : top < bottom) (cb : CropBox)
    (hcb : cb = cropOf w h top left right bottom) :
    (∀ r c r' c' : ℕ, r < ROWS → c < COLS → r' < ROWS → c' < COLS →
      (r, c) ≠ (r', c') → ∀ p : ℤ × ℤ,
      inOuterCell cb r c p → ¬ inOuterCell cb r' c' p) ∧
    (∀ p : ℤ × ℤ,
      (∃ r, r < ROWS ∧ ∃ c, c < COLS ∧ inOuterCell cb r c p) ↔
      (cb.L ≤ p.1 ∧ p.1 < cb.L + COLS * cellW cb ∧
       cb.T ≤ p.2 ∧ p.2 < cb.T + ROWS * cellH cb)) ∧
    (∀ p : ℤ × ℤ,
      (∃ r, r < ROWS ∧ ∃ c, c < COLS ∧ inOuterCell cb r c p) →
      inCropBox cb p) ∧
    allSlots = List.range' 1 (ROWS * COLS) := by
  have hLR : cb.L ≤ cb.R := by
    rw [hcb]
    exact jsRound_mono (by gcongr)
  have hTB : cb.T ≤ cb.B := by
    rw [hcb]
    exact jsRound_mono (by gcongr)
  have hcW : 0 ≤ cellW cb := Int.fdiv_nonneg (by omega) (by norm_num)
  have hcH : 0 ≤ cellH cb := Int.fdiv_nonneg (by omega) (by norm_num)
  have hWle : (COLS : ℤ) * cellW cb ≤ cb.R - cb.L := mul_fdiv_le (by omega) (by norm_num)
  have hHle : (ROWS : ℤ) * cellH cb ≤ cb.B - cb.T := mul_fdiv_le (by omega) (by norm_num)
  have hunion : ∀ p : ℤ × ℤ,
      (∃ r, r < ROWS ∧ ∃ c, c < COLS ∧ inOuterCell cb r c p) ↔
      (cb.L ≤ p.1 ∧ p.1 < cb.L + COLS * cellW cb ∧
       cb.T ≤ p.2 ∧ p.2 < cb.T + ROWS * cellH cb) := by
    intro p
    constructor
    · rintro ⟨r, hr, c, hc, h1, h2, h3, h4⟩
      have hcle : (c : ℤ) + 1 ≤ (COLS : ℤ) := by
        have : c + 1 ≤ COLS := hc
        exact_mod_cast this
      have hrle : (r : ℤ) + 1 ≤ (ROWS : ℤ) := by
        have : r + 1 ≤ ROWS := hr
        exact_mod_cast this
      have hc1 : ((c : ℤ) + 1) * cellW cb ≤ (COLS : ℤ) * cellW cb :=
        mul_le_mul_of_nonneg_right hcle hcW
      have hr1 : ((r : ℤ) + 1) * cellH cb ≤ (ROWS : ℤ) * cellH cb :=
        mul_le_mul_of_nonneg_right hrle hcH
      have hcnn : 0 ≤ (c : ℤ) * cellW cb := mul_nonneg (by positivity) hcW
      have hrnn : 0 ≤ (r : ℤ) * cellH cb := mul_nonneg (by positivity) hcH
      exact ⟨by linarith, by linarith, by linarith, by linarith⟩
    · rintro ⟨hx1, hx2, hy1, hy2⟩
      have hcwpos : 0 < cellW cb := by
        rcases hcW.lt_or_eq with hpos | hzero
        · exact hpos
        · rw [← hzero] at hx2; simp at hx2; omega
      have hchpos : 0 < cellH cb := by
        rcases hcH.lt_or_eq with hpos | hzero
        · exact hpos
        · rw [← hzero] at hy2; simp at hy2; omega
      obtain ⟨i, hi0, hiN, hil, hiu⟩ :=
        exists_interval_index (d := cellW cb) (n := (COLS : ℤ)) (x := p.1 - cb.L)
          hcwpos (by omega) (by linarith)
      obtain ⟨j, hj0, hjN, hjl, hju⟩ :=
        exists_interval_index (d := cellH cb) (n := (ROWS : ℤ)) (x := p.2 - cb.T)
          hchpos (by omega) (by linarith)
      refine ⟨j.toNat, ?_, i.toNat, ?_, ?_, ?_, ?_, ?_⟩
      · have := Int.toNat_of_nonneg hj0
        simp only [ROWS] at hjN ⊢
        omega
      · have := Int.toNat_of_nonneg hi0
        simp only [COLS] at hiN ⊢
        omega
      · rw [Int.toNat_of_nonneg hi0]; linarith
      · rw [Int.toNat_of_nonneg hi0]; linarith
      · rw [Int.toNat_of_nonneg hj0]; linarith
      · rw [Int.toNat_of_nonneg hj0]; linarith
  refine ⟨?_, hunion, ?_, by decide⟩
  · rintro r c r' c' hr hc hr' hc' hne p ⟨h1, h2, h3, h4⟩ ⟨h1', h2', h3', h4'⟩
    have hne' : r ≠ r' ∨ c ≠ c' := by
      by_contra hcon
      push_neg at hcon
      exact hne (by rw [hcon.1, hcon.2])
    rcases hne' with hrr | hcc
    · exact interval_disjoint (i := (r : ℤ)) (j := (r' : ℤ))
        (by exact_mod_cast hrr) h3 h4 h3' h4'
    · exact interval_disjoint (i := (c : ℤ)) (j := (c' : ℤ))
        (by exact_mod_cast hcc) h1 h2 h1' h2'
  · intro p hp
    obtain ⟨hx1, hx2, hy1, hy2⟩ := (hunion p).mp hp
    exact ⟨hx1, by omega, hy1, by omega⟩

theorem c4_grid_tiling_amended_witness :
    ((19 : ℚ) < 83) ∧ ((9 : ℚ) < 92) ∧
    ((⟨190, 830, 72, 736⟩ : CropBox) = cropOf 1000 800 9 19 83 92) ∧
    inOuterCell (⟨190, 830, 72, 736⟩ : CropBox) 0 0 (190, 72) ∧
    ¬ inOuterCell (⟨190, 830, 72, 736⟩ : CropBox) 0 1 (190, 72) ∧
    allSlots = List.range' 1 (ROWS * COLS) := by
  have hcb : (⟨190, 830, 72, 736⟩ : CropBox) = cropOf 1000 800 9 19 83 92 := by
    norm_num [cropOf, jsRound, CropBox.mk.injEq]
  refine ⟨by norm_num, by norm_num, hcb, by decide, ?_, ?_⟩
  · exact (c4_grid_tiling_amended 1000 800 9 19 83 92 (by norm_num) (by norm_num)
      ⟨190, 830, 72, 736⟩ hcb).1 0 0 0 1 (by decide) (by decide) (by decide)
      (by decide) (by decide) (190, 72) (by decide)
  · exact (c4_grid_tiling_amended 1000 800 9 19 83 92 (by norm_num) (by norm_num)
      ⟨190, 830, 72, 736⟩ hcb).2.2.2

/-! ## Otsu lemmas -/

theorem prefHist_succ (hist : Nat → Nat) (k : ℕ) :
    prefHist hist (k + 1) = prefHist hist k + hist k := by
  simp [prefHist, List.range_succ]

theorem prefSum_succ (hist : Nat → Nat) (k : ℕ) :
    prefSum hist (k + 1) = prefSum hist k + k * hist k := by
  simp [prefSum, List.range_succ]

theorem prefHist_mono (hist : Nat → Nat) {k l : ℕ} (h : k ≤ l) :
    prefHist hist k ≤ prefHist hist l := by
  induction l with
  | zero => simp_all
  | succ n ih =>
      rcases Nat.lt_or_ge k (n + 1) with hlt | hge
      · exact (ih (by omega)).trans (by rw [prefHist_succ]; omega)
      · have : k = n + 1 := by omega
        subst this; exact le_refl _

theorem sumIH_eq_prefSum (hist : Nat → Nat) : sumIH hist = prefSum hist 256 := rfl

theorem foldl_range_succ {α : Type} (f : α → ℕ → α) (init : α) (n : ℕ) :
    (List.range (n + 1)).foldl f init = f ((List.range n).foldl f init) n := by
  rw [List.range_succ, List.foldl_append, List.foldl_cons, List.foldl_nil]

theorem prefHist_double (hist : Nat → Nat) (k : ℕ) :
    prefHist (fun i => 2 * hist i) k = 2 * prefHist hist k := by
  induction k with
  | zero => rfl
  | succ n ih => rw [prefHist_succ, prefHist_succ, ih]; ring

theorem prefSum_double (hist : Nat → Nat) (k : ℕ) :
    prefSum (fun i => 2 * hist i) k = 2 * prefSum hist k := by
  induction k with
  | zero => rfl
  | succ n ih => rw [prefSum_succ, prefSum_succ, ih]; ring

theorem isCand_double (hist : Nat → Nat) (total t : ℕ) :
    isCand (fun i => 2 * hist i) (2 * total) t ↔ isCand hist total t := by
  unfold isCand
  rw [prefHist_double]
  omega

theorem varAt_double (hist : Nat → Nat) (total t : ℕ) :
    varAt (fun i => 2 * hist i) (2 * total) t = 4 * varAt hist total t := by
  simp only [varAt, prefHist_double, prefSum_double, sumIH_eq_prefSum]
  push_cast
  set a := (prefHist hist (t + 1) : ℚ) with ha
  set p := (prefSum hist (t + 1) : ℚ) with hp
  set S := (prefSum hist 256 : ℚ) with hS
  set T := (total : ℚ) with hT
  have e1 : 2 * p / (2 * a) = p / a := mul_div_mul_left p a two_ne_zero
  have e2 : (2 * S - 2 * p) / (2 * T - 2 * a) = (S - p) / (T - a) := by
    have ea : (2 : ℚ) * S - 2 * p = 2 * (S - p) := by ring
    have eb : (2 : ℚ) * T - 2 * a = 2 * (T - a) := by ring
    rw [ea, eb, mul_div_mul_left _ _ two_ne_zero]
  rw [e1, e2]
  ring

theorem varAt_nonneg (hist : Nat → Nat) (total t : ℕ)
    (hc : isCand hist total t) : 0 ≤ varAt hist total t := by
  obtain ⟨h1, h2⟩ := hc
  unfold varAt
  have hw : (0 : ℚ) ≤ (prefHist hist (t + 1) : ℚ) := by positivity
  have hf : (0 : ℚ) ≤ (total : ℚ) - (prefHist hist (t + 1) : ℚ) := by
    rw [sub_nonneg]
    exact_mod_cast h2.le
  exact mul_nonneg (mul_nonneg hw hf) (mul_self_nonneg _)

theorem otsuBetween_eq_varAt (hist : Nat → Nat) (total k : ℕ) (s : OtsuState)
    (hw : s.wB = prefHist hist k) (hs : s.sumB = prefSum hist k) :
    otsuBetween hist total (sumIH hist) s k = varAt hist total k := by
  simp only [otsuBetween, varAt, hw, hs, ← prefHist_succ, ← prefSum_succ,
    sumIH_eq_prefSum]
  push_cast
  ring

theorem bestAt_extend_noncand (hist : Nat → Nat) (total k : ℕ)
    (s : OtsuState) (hb : BestAt hist total k s)
    (hnc : ¬ isCand hist total k) : BestAt hist total (k + 1) s := by
  rcases hb with ⟨hnone, hmv, hthr⟩ | ⟨t0, ht0, hc0, hthr, hmv, hmax, hfirst⟩
  · refine Or.inl ⟨fun t ht => ?_, hmv, hthr⟩
    rcases Nat.lt_or_ge t k with h | h
    · exact hnone t h
    · have : t = k := by omega
      subst this; exact hnc
  · refine Or.inr ⟨t0, by omega, hc0, hthr, hmv, fun t ht hc => ?_, hfirst⟩
    rcases Nat.lt_or_ge t k with h | h
    · exact hmax t h hc
    · have : t = k := by omega
      subst this; exact absurd hc hnc

theorem bestAt_extend_all (hist : Nat → Nat) (total k : ℕ) (s : OtsuState)
    (hk : k ≤ 256) (hb : BestAt hist total k s)
    (hnc : ∀ t, k ≤ t → ¬ isCand hist total t) : BestAt hist total 256 s := by
  rcases hb with ⟨hnone, hmv, hthr⟩ | ⟨t0, ht0, hc0, hthr, hmv, hmax, hfirst⟩
  · refine Or.inl ⟨fun t ht => ?_, hmv, hthr⟩
    rcases Nat.lt_or_ge t k with h | h
    · exact hnone t h
    · exact hnc t h
  · refine Or.inr ⟨t0, by omega, hc0, hthr, hmv, fun t ht hc => ?_, hfirst⟩
    rcases Nat.lt_or_ge t k with h | h
    · exact hmax t h hc
    · exact absurd hc (hnc t h)

theorem bestAt_congr (hist : Nat → Nat) (total k : ℕ) {s s' : OtsuState}
    (hmv : s'.maxVar = s.maxVar) (hth : s'.threshold = s.threshold)
    (hb : BestAt hist total k s) : BestAt hist total k s' := by
  rcases hb with ⟨hnone, hmv0, hthr⟩ | ⟨t0, ht0, hc0, hthr, hmv0, hmax, hfirst⟩
  · exact Or.inl ⟨hnone, by rw [hmv, hmv0], by rw [hth, hthr]⟩
  · exact Or.inr ⟨t0, ht0, hc0, by rw [hth, hthr], by rw [hmv, hmv0],
      hmax, hfirst⟩

/-- The loop body preserves the Otsu invariant. -/
theorem otsu_step_inv (hist : Nat → Nat) (total : ℕ)
    (htot : total = prefHist hist 256) (k : ℕ) (hk : k < 256) (s : OtsuState)
    (h1 : s.done = false →
      s.wB = prefHist hist k ∧ s.sumB = prefSum hist k ∧ BestAt hist total k s)
    (h2 : s.done = true → BestAt hist total 256 s) :
    ((otsuStep hist total (sumIH hist) s k).done = false →
      (otsuStep hist total (sumIH hist) s k).wB = prefHist hist (k + 1) ∧
      (otsuStep hist total (sumIH hist) s k).sumB = prefSum hist (k + 1) ∧
      BestAt hist total (k + 1) (otsuStep hist total (sumIH hist) s k)) ∧
    ((otsuStep hist total (sumIH hist) s k).done = true →
      BestAt hist total 256 (otsuStep hist total (sumIH hist) s k)) := by
  cases hdone : s.done with
  | true =>
      have hstep : otsuStep hist total (sumIH hist) s k = s := by
        simp [otsuStep, hdone]
      rw [hstep]
      exact ⟨fun hf => by simp [hdone] at hf, fun _ => h2 hdone⟩
  | false =>
      obtain ⟨hw, hs, hb⟩ := h1 hdone
      by_cases hw0 : s.wB + hist k = 0
      · have hstep : otsuStep hist total (sumIH hist) s k
            = { s with wB := s.wB + hist k } := by
          simp [otsuStep, hdone, hw0]
        rw [hstep]
        have hnc : ¬ isCand hist total k := by
          intro hc
          have := hc.1
          rw [prefHist_succ] at this
          omega
        refine ⟨fun _ => ⟨?_, ?_, ?_⟩, fun hcon => by simp [hdone] at hcon⟩
        · show s.wB + hist k = prefHist hist (k + 1)
          rw [prefHist_succ]; omega
        · show s.sumB = prefSum hist (k + 1)
          rw [prefSum_succ]
          have : hist k = 0 := by omega
          rw [this]; omega
        · exact bestAt_congr hist total (k + 1) rfl rfl
            (bestAt_extend_noncand hist total k s hb hnc)
      · by_cases hf0 : (total : ℤ) - ((s.wB : ℤ) + (hist k : ℤ)) = 0
        · have hstep : otsuStep hist total (sumIH hist) s k
              = { s with wB := s.wB + hist k, done := true } := by
            simp only [otsuStep, hdone, Bool.false_eq_true, if_false, hw0,
              if_neg hw0]
            rw [if_pos (by push_cast; omega)]
          rw [hstep]
          have htk : total = prefHist hist (k + 1) := by
            rw [prefHist_succ]; omega
          have hnc : ∀ t, k ≤ t → ¬ isCand hist total t := by
            intro t ht hc
            have hmono : prefHist hist (k + 1) ≤ prefHist hist (t + 1) :=
              prefHist_mono hist (by omega)
            have := hc.2
            omega
          refine ⟨fun hcon => by simp at hcon, fun _ => ?_⟩
          exact bestAt_congr hist total 256 rfl rfl
            (bestAt_extend_all hist total k s hk.le hb hnc)
        · have hcand : isCand hist total k := by
            constructor
            · rw [prefHist_succ]; omega
            · have hle : prefHist hist (k + 1) ≤ total := by
                rw [htot]; exact prefHist_mono hist (by omega)
              rw [prefHist_succ] at hle ⊢
              omega
          have hbet : otsuBetween hist total (sumIH hist) s k
              = varAt hist total k :=
            otsuBetween_eq_varAt hist total k s hw hs
          by_cases hcmp : s.maxVar < otsuBetween hist total (sumIH hist) s k
          · have hstep : otsuStep hist total (sumIH hist) s k
                = ⟨s.wB + hist k, s.sumB + k * hist k,
                   otsuBetween hist total (sumIH hist) s k, k, false⟩ := by
              simp only [otsuStep, hdone, Bool.false_eq_true, if_false,
                if_neg hw0]
              rw [if_neg (by push_cast; omega), if_pos hcmp]
            rw [hstep]
            refine ⟨fun _ => ⟨?_, ?_, ?_⟩, fun hcon => by simp at hcon⟩
            · show s.wB + hist k = prefHist hist (k + 1)
              rw [prefHist_succ]; omega
            · show s.sumB + k * hist k = prefSum hist (k + 1)
              rw [prefSum_succ]; omega
            · refine Or.inr ⟨k, by omega, hcand, rfl, hbet,
                fun t ht hc => ?_, fun t ht hc => ?_⟩
              · rcases Nat.lt_or_ge t k with hlt | hge
                · rcases hb with ⟨hnone, _, _⟩ | ⟨t0, ht0, hc0, _, hmv, hmax, _⟩
                  · exact absurd hc (hnone t hlt)
                  · have h1 := hmax t hlt hc
                    rw [hbet, hmv] at hcmp
                    exact h1.trans hcmp.le
                · have : t = k := by omega
                  subst this; exact le_refl _
              · rcases hb with ⟨hnone, _, _⟩ | ⟨t0, ht0, hc0, _, hmv, hmax, _⟩
                · exact absurd hc (hnone t ht)
                · have h1 := hmax t ht hc
                  rw [hbet, hmv] at hcmp
                  exact h1.trans_lt hcmp
          · have hstep : otsuStep hist total (sumIH hist) s k
                = { s with wB := s.wB + hist k, sumB := s.sumB + k * hist k } := by
              simp only [otsuStep, hdone, Bool.false_eq_true, if_false,
                if_neg hw0]
              rw [if_neg (by push_cast; omega), if_neg hcmp]
            rw [hstep]
            refine ⟨fun _ => ⟨?_, ?_, ?_⟩, fun hcon => by simp [hdone] at hcon⟩
            · show s.wB + hist k = prefHist hist (k + 1)
              rw [prefHist_succ]; omega
            · show s.sumB + k * hist k = prefSum hist (k + 1)
              rw [prefSum_succ]; omega
            · rcases hb with ⟨hnone, hmv, hthr⟩ | ⟨t0, ht0, hc0, hthr, hmv, hmax, hfirst⟩
              · exfalso
                apply hcmp
                rw [hmv, hbet]
                have := varAt_nonneg hist total k hcand
                linarith
              · refine Or.inr ⟨t0, by omega, hc0, hthr, hmv,
                  fun t ht hc => ?_, hfirst⟩
                rcases Nat.lt_or_ge t k with hlt | hge
                · exact hmax t hlt hc
                · have : t = k := by omega
                  subst this
                  rw [← hbet]
                  rw [not_lt, hmv] at hcmp
                  exact hcmp
/-- The Otsu invariant holds after any prefix of the loop. -/
theorem otsu_inv (hist : Nat → Nat) (total : ℕ)
    (htot : total = prefHist hist 256) :
    ∀ k, k ≤ 256 →
      ((((List.range k).foldl (otsuStep hist total (sumIH hist)) otsuInit).done = false →
        ((List.range k).foldl (otsuStep hist total (sumIH hist)) otsuInit).wB
          = prefHist hist k ∧
        ((List.range k).foldl (otsuStep hist total (sumIH hist)) otsuInit).sumB
          = prefSum hist k ∧
        BestAt hist total k
          ((List.range k).foldl (otsuStep hist total (sumIH hist)) otsuInit)) ∧
      ((((List.range k).foldl (otsuStep hist total (sumIH hist)) otsuInit).done = true →
        BestAt hist total 256
          ((List.range k).foldl (otsuStep hist total (sumIH hist)) otsuInit)))) := by
  intro k
  induction k with
  | zero =>
      intro _
      refine ⟨fun _ => ⟨rfl, rfl, Or.inl ⟨fun t ht => absurd ht (by omega), rfl, rfl⟩⟩,
        fun hcon => ?_⟩
      simp [otsuInit] at hcon
  | succ n ih =>
      intro hk
      rw [foldl_range_succ]
      exact otsu_step_inv hist total htot n (by omega) _
        (ih (by omega)).1 (ih (by omega)).2

/-- The loop's result is the first candidate threshold maximising the
inter-class variance (or 127 when there is no candidate). -/
theorem otsu_threshold_spec (hist : Nat → Nat) (total : ℕ)
    (htot : total = prefHist hist 256) :
    ((∀ t, t < 256 → ¬ isCand hist total t) ∧ otsuThreshold hist total = 127) ∨
    (∃ t0, t0 < 256 ∧ isCand hist total t0 ∧ otsuThreshold hist total = t0 ∧
      (∀ t, t < 256 → isCand hist total t →
        varAt hist total t ≤ varAt hist total t0) ∧
      (∀ t, t < t0 → isCand hist total t →
        varAt hist total t < varAt hist total t0)) := by
  have h := otsu_inv hist total htot 256 le_rfl
  have hbest : BestAt hist total 256
      ((List.range 256).foldl (otsuStep hist total (sumIH hist)) otsuInit) := by
    cases hdone : ((List.range 256).foldl (otsuStep hist total (sumIH hist)) otsuInit).done with
    | false => exact (h.1 hdone).2.2
    | true => exact h.2 hdone
  rcases hbest with ⟨hnone, _, hthr⟩ | ⟨t0, ht0, hc0, hthr, _, hmax, hfirst⟩
  · exact Or.inl ⟨hnone, hthr⟩
  · exact Or.inr ⟨t0, ht0, hc0, hthr, hmax, hfirst⟩

/-- Scaling every bucket (and the total) by 2 does not change the chosen
threshold. -/
theorem otsu_scaling (hist : Nat → Nat) (total : ℕ)
    (htot : total = prefHist hist 256) :
    otsuThreshold (fun i => 2 * hist i) (2 * total) = otsuThreshold hist total := by
  have htot2 : 2 * total = prefHist (fun i => 2 * hist i) 256 := by
    rw [prefHist_double, htot]
  have h1 := otsu_threshold_spec hist total htot
  have h2 := otsu_threshold_spec (fun i => 2 * hist i) (2 * total) htot2
  rcases h1 with ⟨hnone1, hthr1⟩ | ⟨t0, ht0, hc0, hthr0, hmax0, hfirst0⟩
  · rcases h2 with ⟨hnone2, hthr2⟩ | ⟨t1, ht1, hc1, hthr1', _, _⟩
    · rw [hthr1, hthr2]
    · exact absurd ((isCand_double hist total t1).mp hc1) (hnone1 t1 ht1)
  · rcases h2 with ⟨hnone2, hthr2⟩ | ⟨t1, ht1, hc1, hthr1', hmax1, hfirst1⟩
    · exact absurd ((isCand_double hist total t0).mpr hc0) (hnone2 t0 ht0)
    · have hc1' : isCand hist total t1 := (isCand_double hist total t1).mp hc1
      have hle1 : varAt hist total t1 ≤ varAt hist total t0 := hmax0 t1 ht1 hc1'
      have hle2 : varAt hist total t0 ≤ varAt hist total t1 := by
        have := hmax1 t0 ht0 ((isCand_double hist total t0).mpr hc0)
        rw [varAt_double, varAt_double] at this
        linarith
      have heq : varAt hist total t0 = varAt hist total t1 := le_antisymm hle2 hle1
      have : t0 = t1 := by
        rcases Nat.lt_trichotomy t0 t1 with hlt | heqn | hgt
        · have := hfirst1 t0 hlt ((isCand_double hist total t0).mpr hc0)
          rw [varAt_double, varAt_double] at this
          linarith
        · exact heqn
        · have := hfirst0 t1 hgt hc1'
          linarith
      rw [hthr0, hthr1', this]

/-- C9: Otsu threshold selection (on a histogram with its consistent total
count) is invariant under histogram scaling: doubling every bucket count and
the total yields the same threshold; the selected threshold maximises the
inter-class variance over all candidate thresholds and ties keep the first
(lowest) maximiser; and a zero-total histogram yields the fixed default
mid-level threshold 128 (`total > 0 ? otsuThreshold(hist, total) : 128`). -/
theorem c9_otsu_scaling_ties_default (hist : Nat → Nat) (total : ℕ)
    (htot : total = prefHist hist 256) :
    otsuThreshold (fun i => 2 * hist i) (2 * total) = otsuThreshold hist total ∧
    (∀ t, t < 256 → isCand hist total t →
      varAt hist total t ≤ varAt hist total (otsuThreshold hist total) ∧
      (varAt hist total t = varAt hist total (otsuThreshold hist total) →
        otsuThreshold hist total ≤ t)) ∧
    (total = 0 → selectTgray hist total = 128) := by
  refine ⟨otsu_scaling hist total htot, fun t ht hc => ?_, fun h0 => ?_⟩
  · rcases otsu_threshold_spec hist total htot with ⟨hnone, _⟩ |
      ⟨t0, ht0, hc0, hthr, hmax, hfirst⟩
    · exact absurd hc (hnone t ht)
    · rw [hthr]
      refine ⟨hmax t ht hc, fun he => ?_⟩
      by_contra hlt
      push_neg at hlt
      exact absurd he (hfirst t hlt hc).ne
  · rw [h0]
    rfl

set_option maxRecDepth 40000 in
theorem c9_otsu_scaling_ties_default_witness :
    (2 = prefHist (fun i => if i = 0 then 1 else if i = 1 then 1 else 0) 256) ∧
    ((0 : ℕ) < 256) ∧
    isCand (fun i => if i = 0 then 1 else if i = 1 then 1 else 0) 2 0 ∧
    (varAt (fun i => if i = 0 then 1 else if i = 1 then 1 else 0) 2 0 ≤
      varAt (fun i => if i = 0 then 1 else if i = 1 then 1 else 0) 2
        (otsuThreshold (fun i => if i = 0 then 1 else if i = 1 then 1 else 0) 2) ∧
     (varAt (fun i => if i = 0 then 1 else if i = 1 then 1 else 0) 2 0 =
      varAt (fun i => if i = 0 then 1 else if i = 1 then 1 else 0) 2
        (otsuThreshold (fun i => if i = 0 then 1 else if i = 1 then 1 else 0) 2) →
      otsuThreshold (fun i => if i = 0 then 1 else if i = 1 then 1 else 0) 2 ≤ 0)) :=
  ⟨by decide, by decide, by decide,
    (c9_otsu_scaling_ties_default (fun i => if i = 0 then 1 else if i = 1 then 1 else 0)
      2 (by decide)).2.1 0 (by decide) (by decide)⟩

/-! ## Codec lemmas -/

theorem upperCh_eq_self {c : Char} (h : c.toNat < 97) : upperCh c = c := by
  unfold upperCh
  rw [if_neg (by omega)]

theorem isWsCh_eq_false {c : Char} (h : 32 < c.toNat) : isWsCh c = false := by
  simp only [isWsCh, Bool.or_eq_false_iff, decide_eq_false_iff_not]
  omega

theorem digitChar_toNat {d : ℕ} (h : d < 10) : (digitChar d).toNat = 48 + d := by
  interval_cases d <;> decide

theorem toDecimal_chars (n : ℕ) :
    ∀ c ∈ toDecimal n, 48 ≤ c.toNat ∧ c.toNat ≤ 57 := by
  induction n using Nat.strong_induction_on with
  | _ n ih =>
      rw [toDecimal]
      split
      · next h =>
          intro c hc
          simp only [List.mem_singleton] at hc
          subst hc
          rw [digitChar_toNat h]
          omega
      · next h =>
          intro c hc
          rw [List.mem_append] at hc
          rcases hc with hc | hc
          · exact ih (n / 10) (Nat.div_lt_self (by omega) (by omega)) c hc
          · simp only [List.mem_singleton] at hc
            subst hc
            rw [digitChar_toNat (Nat.mod_lt _ (by omega))]
            omega

theorem parseDigits_append (l : List Char) (c : Char) :
    parseDigits (l ++ [c]) = 10 * parseDigits l + digitVal c := by
  unfold parseDigits
  rw [List.foldl_append]
  rfl

theorem parseDigits_toDecimal (n : ℕ) : parseDigits (toDecimal n) = n := by
  induction n using Nat.strong_induction_on with
  | _ n ih =>
      rw [toDecimal]
      split
      · next h =>
          show parseDigits [digitChar n] = n
          have : digitVal (digitChar n) = n := by
            unfold digitVal
            rw [digitChar_toNat h]
            omega
          simp [parseDigits, this]
      · next h =>
          rw [parseDigits_append,
            ih (n / 10) (Nat.div_lt_self (by omega) (by omega))]
          have : digitVal (digitChar (n % 10)) = n % 10 := by
            unfold digitVal
            rw [digitChar_toNat (Nat.mod_lt _ (by omega))]
            omega
          rw [this]
          omega

theorem toDecimal_ne_nil (n : ℕ) : toDecimal n ≠ [] := by
  rw [toDecimal]
  split <;> simp

theorem toDecimal_length_pos (n : ℕ) : 1 ≤ (toDecimal n).length := by
  rcases hl : toDecimal n with _ | ⟨c, t⟩
  · exact absurd hl (toDecimal_ne_nil n)
  · simp

theorem toDecimal_lt_ten {n : ℕ} (h : n < 10) :
    toDecimal n = [digitChar n] := by
  rw [toDecimal, dif_pos h]

theorem toDecimal_length_le_two {n : ℕ} (h : n ≤ 99) :
    (toDecimal n).length ≤ 2 := by
  rw [toDecimal]
  split
  · simp
  · next h10 =>
      rw [toDecimal_lt_ten (by omega : n / 10 < 10)]
      simp

theorem toDecimal_length_le_three {n : ℕ} (h : n ≤ 999) :
    (toDecimal n).length ≤ 3 := by
  rw [toDecimal]
  split
  · simp
  · next h10 =>
      have h2 : (toDecimal (n / 10)).length ≤ 2 :=
        toDecimal_length_le_two (by omega)
      rw [List.length_append]
      simp only [List.length_singleton]
      omega

theorem toDecimal_all_digits (n : ℕ) : (toDecimal n).all isDigitCh = true := by
  rw [List.all_eq_true]
  intro c hc
  have := toDecimal_chars n c hc
  simp only [isDigitCh, Bool.and_eq_true, decide_eq_true_eq]
  omega

theorem normalizeSN_of_chars : ∀ l : List Char,
    (∀ c ∈ l, upperCh c = c ∧ isWsCh c = false) → normalizeSN l = l := by
  intro l
  induction l with
  | nil => intro _; rfl
  | cons c t ih =>
      intro h
      obtain ⟨h1, h2⟩ := h c (List.mem_cons_self c t)
      have ht := ih (fun x hx => h x (List.mem_cons_of_mem c hx))
      simp only [normalizeSN, List.map_cons, List.filter_cons, h1, h2] at ht ⊢
      simp only [Bool.not_false, if_true, List.cons.injEq, ht, and_self]

theorem takeWhile_dropWhile_append {p : Char → Bool} :
    ∀ (l : List Char) (b : Char) (r : List Char),
    (∀ a ∈ l, p a = true) → p b = false →
    (l ++ b :: r).takeWhile p = l ∧ (l ++ b :: r).dropWhile p = b :: r := by
  intro l
  induction l with
  | nil =>
      intro b r _ hb
      simp [List.takeWhile_cons, List.dropWhile_cons, hb]
  | cons c t ih =>
      intro b r h hb
      have hc := h c (List.mem_cons_self c t)
      have := ih b r (fun a ha => h a (List.mem_cons_of_mem c ha)) hb
      simp [List.takeWhile_cons, List.dropWhile_cons, hc, this.1, this.2]

theorem matchSM_none_of_digit {c : Char} (h : isDigitCh c = true)
    (t : List Char) : matchSM (c :: t) = none := by
  have hcS : c ≠ 'S' := by
    intro he
    subst he
    exact absurd h (by decide)
  rcases t with _ | ⟨m, t2⟩
  · rfl
  · rcases t2 with _ | ⟨d, rest⟩
    · rfl
    · simp only [matchSM]
      rw [if_neg]
      rintro ⟨h1, -⟩
      exact hcS h1

/-- Round trip for the grade-box grammar, for an arbitrary box letter with
the relevant character facts. -/
theorem parse_build_gradeBox (g s : ℕ) (b : Char) (hg : g ≤ 99) (hs : s ≤ 999)
    (hbd : isDigitCh b = false) (hbm : b ∈ boxLetters) (hbu : upperCh b = b)
    (hbw : isWsCh b = false) :
    parseSecurityNumber (buildSecurityNumber g [b] s)
      = some ⟨some g, [b], s⟩ := by
  have hmap : [b].map upperCh = [b] := by simp [hbu]
  have hnotSM : ¬([b] = ['S', 'M', '1'] ∨ [b] = ['S', 'M', '2']) := by
    rintro (he | he) <;> simp at he
  have hbuild : buildSecurityNumber g [b] s
      = toDecimal g ++ b :: toDecimal s := by
    simp only [buildSecurityNumber, hmap]
    rw [if_neg hnotSM]
    simp
  rw [hbuild]
  have hnorm : normalizeSN (toDecimal g ++ b :: toDecimal s)
      = toDecimal g ++ b :: toDecimal s := by
    apply normalizeSN_of_chars
    intro x hx
    rcases List.mem_append.mp hx with hx | hx
    · have := toDecimal_chars g x hx
      exact ⟨upperCh_eq_self (by omega), isWsCh_eq_false (by omega)⟩
    · rcases List.mem_cons.mp hx with rfl | hx
      · exact ⟨hbu, hbw⟩
      · have := toDecimal_chars s x hx
        exact ⟨upperCh_eq_self (by omega), isWsCh_eq_false (by omega)⟩
  obtain ⟨c, t, hct⟩ := List.exists_cons_of_ne_nil (toDecimal_ne_nil g)
  have hcdig : isDigitCh c = true := by
    have := toDecimal_chars g c (by rw [hct]; exact List.mem_cons_self _ _)
    simp only [isDigitCh, Bool.and_eq_true, decide_eq_true_eq]
    omega
  have htw := takeWhile_dropWhile_append (p := isDigitCh) (toDecimal g) b
    (toDecimal s)
    (fun a ha => by
      have := toDecimal_chars g a ha
      simp only [isDigitCh, Bool.and_eq_true, decide_eq_true_eq]
      omega)
    hbd
  have hsm : matchSM (toDecimal g ++ b :: toDecimal s) = none := by
    rw [hct, List.cons_append]
    exact matchSM_none_of_digit hcdig _
  simp only [parseSecurityNumber, hnorm, hsm]
  rw [if_neg (by rw [hct]; simp)]
  simp only [matchGradeBox, htw.1, htw.2]
  rw [if_pos ⟨⟨toDecimal_length_pos g, toDecimal_length_le_two hg⟩, hbm,
    ⟨toDecimal_length_pos s, toDecimal_length_le_three hs⟩,
    toDecimal_all_digits s⟩]
  rw [parseDigits_toDecimal, parseDigits_toDecimal]

/-- Round trip for the standalone-box grammar. -/
theorem parse_build_sm (g s : ℕ) (d : Char) (hs : s ≤ 999)
    (hd : d = '1' ∨ d = '2') :
    parseSecurityNumber (buildSecurityNumber g ['S', 'M', d] s)
      = some ⟨none, ['S', 'M', d], s⟩ := by
  have hmap : ['S', 'M', d].map upperCh = ['S', 'M', d] := by
    rcases hd with rfl | rfl <;> decide
  have hsmc : ['S', 'M', d] = ['S', 'M', '1'] ∨ ['S', 'M', d] = ['S', 'M', '2'] := by
    rcases hd with rfl | rfl
    · exact Or.inl rfl
    · exact Or.inr rfl
  have hbuild : buildSecurityNumber g ['S', 'M', d] s
      = 'S' :: 'M' :: d :: '-' :: toDecimal s := by
    simp only [buildSecurityNumber, hmap]
    rw [if_pos hsmc]
    rfl
  rw [hbuild]
  have hnorm : normalizeSN ('S' :: 'M' :: d :: '-' :: toDecimal s)
      = 'S' :: 'M' :: d :: '-' :: toDecimal s := by
    apply normalizeSN_of_chars
    intro x hx
    rcases List.mem_cons.mp hx with rfl | hx
    · exact ⟨by decide, by decide⟩
    · rcases List.mem_cons.mp hx with rfl | hx
      · exact ⟨by decide, by decide⟩
      · rcases List.mem_cons.mp hx with rfl | hx
        · rcases hd with rfl | rfl <;> exact ⟨by decide, by decide⟩
        · rcases List.mem_cons.mp hx with rfl | hx
          · exact ⟨by decide, by decide⟩
          · have := toDecimal_chars s x hx
            exact ⟨upperCh_eq_self (by omega), isWsCh_eq_false (by omega)⟩
  have hstrip : stripHyphen ('-' :: toDecimal s) = toDecimal s := by
    simp [stripHyphen]
  have hsm : matchSM ('S' :: 'M' :: d :: '-' :: toDecimal s)
      = some ⟨none, ['S', 'M', d], s⟩ := by
    simp only [matchSM, hstrip]
    rw [if_pos ⟨trivial, trivial, hd⟩,
      if_pos ⟨toDecimal_length_pos s, toDecimal_length_le_three hs,
        toDecimal_all_digits s⟩,
      parseDigits_toDecimal]
  simp only [parseSecurityNumber, hnorm, hsm]
  rw [if_neg (by simp)]

/-- C3: For every valid (grade, box, slot) triple — grade rendered with 1–2
digits (0..99), box one of the fixed letters A–F, slot rendered with 1–3
digits (0..999), or a standalone box code SM1/SM2 with such a slot —
parsing the text produced by `build` reconstructs exactly the same triple;
for standalone-box codes the grade is absent from the rendered text (the
text does not depend on it) and from the parsed value (`grade = none`). -/
theorem c3_codec_roundtrip :
    (∀ g s : ℕ, ∀ box : List Char, g ≤ 99 → s ≤ 999 →
      box ∈ [['A'], ['B'], ['C'], ['D'], ['E'], ['F']] →
      parseSecurityNumber (buildSecurityNumber g box s)
        = some ⟨some g, box, s⟩) ∧
    (∀ g g' s : ℕ, ∀ box : List Char,
      box ∈ [['S', 'M', '1'], ['S', 'M', '2']] →
      buildSecurityNumber g box s = buildSecurityNumber g' box s) ∧
    (∀ g s : ℕ, ∀ box : List Char, s ≤ 999 →
      box ∈ [['S', 'M', '1'], ['S', 'M', '2']] →
      parseSecurityNumber (buildSecurityNumber g box s)
        = some ⟨none, box, s⟩) := by
  refine ⟨fun g s box hg hs hbox => ?_, fun g g' s box hbox => ?_,
    fun g s box hs hbox => ?_⟩
  · fin_cases hbox <;>
      exact parse_build_gradeBox g s _ hg hs (by decide) (by decide)
        (by decide) (by decide)
  · fin_cases hbox <;> rfl
  · fin_cases hbox
    · exact parse_build_sm g s '1' hs (Or.inl rfl)
    · exact parse_build_sm g s '2' hs (Or.inr rfl)

theorem c3_codec_roundtrip_witness :
    ((10 : ℕ) ≤ 99) ∧ ((12 : ℕ) ≤ 999) ∧
    (['F'] ∈ [['A'], ['B'], ['C'], ['D'], ['E'], ['F']]) ∧
    parseSecurityNumber (buildSecurityNumber 10 ['F'] 12)
      = some ⟨some 10, ['F'], 12⟩ ∧
    ((23 : ℕ) ≤ 999) ∧
    (['S', 'M', '2'] ∈ [['S', 'M', '1'], ['S', 'M', '2']]) ∧
    parseSecurityNumber (buildSecurityNumber 9 ['S', 'M', '2'] 23)
      = some ⟨none, ['S', 'M', '2'], 23⟩ :=
  ⟨by decide, by decide, by decide,
    c3_codec_roundtrip.1 10 12 ['F'] (by decide) (by decide) (by decide),
    by decide, by decide,
    c3_codec_roundtrip.2.2 9 23 ['S', 'M', '2'] (by decide) (by decide)⟩

end PhoneCheck
